import Mathlib

/-!
Verification of the GameTok generation pipeline (src/freestyle_live_edit.py).

Python strings are modelled as lists of characters (`PyStr`).  The sanitizer
(`strip_markdown_fences`, `ensure_react_file_contract`, `sanitize_react_code`)
is translated function by function from the source.  The `/generate-game`
route, together with the module-level `last_generation_debug` snapshot, is
modelled by `runPipeline`, with the three external adapter calls (Anthropic
generation, dev-server file read, Morph chat completion) and the file-store
write supplied as oracle parameters: `none` (resp. `false` for the write)
means the call raised an exception, exactly the cases the source catches.
-/

set_option maxRecDepth 40000

abbrev PyStr := List Char

/-- The backtick character. -/
def btChar : Char := Char.ofNat 96

/-- The triple-backtick fence marker handled by `strip_markdown_fences`. -/
def fenceL : PyStr := [btChar, btChar, btChar]

/-- The byte-order mark stripped by `ensure_react_file_contract` (`U+FEFF`). -/
def bomChar : Char := Char.ofNat 0xFEFF

/-- The substring `ensure_react_file_contract` looks for in the first 300
characters. -/
def importReact : PyStr := "import React".toList

/-- The canonical import line prepended by `ensure_react_file_contract`. -/
def importLine : PyStr :=
  "import React, \x7b useEffect, useRef, useState \x7d from \x27react\x27;\n".toList

/-- The substring whose absence triggers the export fix. -/
def exportDefault : PyStr := "export default GameZone".toList

/-- The trailer appended by `ensure_react_file_contract` when the export is
missing. -/
def exportTrailer : PyStr := "\n\nexport default GameZone;\n".toList

/-- Python `str.isspace` on the ASCII whitespace characters relevant to
`str.strip` / `str.rstrip`. -/
def isPySpace (c : Char) : Bool :=
  c = ' ' || c = '\t' || c = '\n' || c = '\r' || c = Char.ofNat 11 || c = Char.ofNat 12

/-- Python `s.rstrip()`. -/
def pyRstrip (l : PyStr) : PyStr := (l.reverse.dropWhile isPySpace).reverse

/-- Python `s.strip()`. -/
def pyStrip (l : PyStr) : PyStr := pyRstrip (l.dropWhile isPySpace)

/-- A character matched by the regex class `[a-zA-Z0-9_\-]` (the fence label). -/
def isLabelChar (c : Char) : Bool := c.isAlpha || c.isDigit || c = '_' || c = '-'

/-- Length consumed by `[a-zA-Z0-9_\-]*\n` at the head of the list, if the
regex tail matches there. -/
def labelNl : PyStr → Option Nat
  | [] => none
  | c :: cs =>
    if c = '\n' then some 1
    else if isLabelChar c then (labelNl cs).map (· + 1)
    else none

/-- Length of a match of the opening-fence regex ```` ```[a-zA-Z0-9_\-]*\n ````
anchored at the head of the list, if any. -/
def openMatchLen (l : PyStr) : Option Nat :=
  if fenceL <+: l then (labelNl (l.drop 3)).map (· + 3) else none

/-- End position of the first (leftmost) match of the opening-fence regex:
`matches[0].end()` in the source. -/
def findOpenEnd : PyStr → Option Nat
  | [] => none
  | c :: cs =>
    match openMatchLen (c :: cs) with
    | some k => some k
    | none => (findOpenEnd cs).map (· + 1)

/-- Position of the last occurrence of the fence marker:
`text.rfind("```")` in the source (with `none` for -1). -/
def rfindFence : PyStr → Option Nat
  | [] => none
  | c :: cs =>
    match rfindFence cs with
    | some k => some (k + 1)
    | none => if fenceL <+: c :: cs then some 0 else none

/-- Python `text.replace("```", "")`: left-to-right non-overlapping removal of
every fence marker.  A list shorter than the marker is returned unchanged. -/
def replaceFence : PyStr → PyStr
  | c1 :: c2 :: c3 :: rest =>
    if c1 = btChar ∧ c2 = btChar ∧ c3 = btChar then replaceFence rest
    else c1 :: replaceFence (c2 :: c3 :: rest)
  | l => l

/-- `strip_markdown_fences` from the source (string case; the `None` guard is
handled by the caller's `raw or ""`).  Returns `(stripped, was_stripped)`. -/
def strip_markdown_fences (text : PyStr) : PyStr × Bool :=
  if fenceL <:+: text then
    match findOpenEnd text with
    | none => (replaceFence text, true)
    | some start =>
      match rfindFence text with
      | none => (replaceFence text, true)
      | some endIdx =>
        if start < endIdx then (pyStrip ((text.drop start).take (endIdx - start)), true)
        else (replaceFence text, true)
  else (text, false)

/-- `ensure_react_file_contract` from the source: strip a leading BOM, prepend
the canonical import when `"import React"` is absent from the first 300
characters, append the export trailer when `"export default GameZone"` is
absent.  Returns `(possibly fixed code, list_of_fixes)`. -/
def ensure_react_file_contract (code : PyStr) : PyStr × List String :=
  let normalized := code.dropWhile (· == bomChar)
  let step1 : PyStr × List String :=
    if importReact <:+: normalized.take 300 then (normalized, [])
    else (importLine ++ normalized, ["added_import"])
  if exportDefault <:+: step1.1 then step1
  else (pyRstrip step1.1 ++ exportTrailer, step1.2 ++ ["added_export"])

/-- The `meta` dictionary produced by `sanitize_react_code`. -/
structure SanMeta where
  source : String
  stripped_fences : Bool
  fixes : List String
deriving DecidableEq

/-- `sanitize_react_code` from the source.  The argument is optional because
the route passes the raw Anthropic output, which is `None` when the generation
call raised; `raw or ""` coerces it to the empty string. -/
def sanitize_react_code (raw : Option PyStr) (source_label : String) : PyStr × SanMeta :=
  let code := raw.getD []
  let s := strip_markdown_fences code
  let e := ensure_react_file_contract s.1
  (e.1, ⟨source_label, s.2, e.2⟩)

/-- The module-level `last_generation_debug` dictionary. -/
structure Debug where
  idea : Option PyStr
  timestamp : Option Nat
  claude_code_raw : Option PyStr
  claude_code : Option PyStr
  before_code : Option PyStr
  morph_code_raw : Option PyStr
  morph_code : Option PyStr
  written_code : Option PyStr
deriving DecidableEq

/-- `last_generation_debug` as initialized at process start. -/
def last_generation_debug_init : Debug :=
  ⟨none, none, none, none, none, none, none, none⟩

/-- Which `return` of the `/generate-game` handler fires.
`emptyCode` is the dedicated `"Failed to generate game HTML"` 500 response,
`morphFailed` the `"Failed to deploy to Freestyle"` 500 response,
`exceptionErr` the generic `str(e)` 500 response of the outer handler. -/
inductive RouteResponse
  | ok
  | emptyCode
  | morphFailed
  | exceptionErr
deriving DecidableEq

/-- Observable outcome of one `/generate-game` run: the response taken, the
debug snapshot after the run, the contents passed to `write_gamezone`
(attempted writes), and whether the Morph chat completion was invoked. -/
structure RunResult where
  resp : RouteResponse
  debug : Debug
  writeCalls : List PyStr
  morphCalled : Bool
deriving DecidableEq

/-- The `/generate-game` pipeline (`generate_game` composed with
`apply_react_with_morph_to_gamezone`), for a connected server and a present
`game_idea`.  `genRes` is the value returned by `generate_game_with_anthropic`
(`none` when that call caught an exception), `readRes` the result of
`read_gamezone` (`none` = raised), `morphRes` the Morph completion content
(`none` = raised), `writeOk` whether `write_gamezone` succeeds.  Mirrors the
source order: debug snapshot of the Claude output, emptiness check on the
sanitized code, `len(game_html)` (a `TypeError` when `game_html` is `None`,
caught by the outer handler), then read, Morph, write. -/
def runPipeline (d : Debug) (idea : PyStr) (t : Nat)
    (genRes readRes morphRes : Option PyStr) (writeOk : Bool) : RunResult :=
  let claudeSan := (sanitize_react_code genRes "Claude").1
  let d1 : Debug := { d with idea := some idea, timestamp := some t,
                             claude_code_raw := genRes, claude_code := some claudeSan }
  if claudeSan.isEmpty then ⟨.emptyCode, d1, [], false⟩
  else
    match genRes with
    | none => ⟨.exceptionErr, d1, [], false⟩
    | some _ =>
      match readRes with
      | none => ⟨.morphFailed, d1, [], false⟩
      | some current =>
        let d2 := { d1 with before_code := some current }
        match morphRes with
        | none => ⟨.morphFailed, d2, [], true⟩
        | some morphRaw =>
          let updated := (sanitize_react_code (some morphRaw) "Morph").1
          let d3 := { d2 with morph_code_raw := some morphRaw, morph_code := some updated }
          if writeOk then ⟨.ok, { d3 with written_code := some updated }, [updated], true⟩
          else ⟨.morphFailed, d3, [updated], true⟩

/-- JSON values appearing in the route responses.  `jexc` stands for the
`str(e)` message of a caught exception. -/
inductive Jv
  | jb (b : Bool)
  | js (s : String)
  | jt (t : PyStr)
  | jexc
deriving DecidableEq

/-- A JSON object, as an ordered list of key-value pairs. -/
abbrev JObj := List (String × Jv)

/-- Value of a key in a response object. -/
def getKey (o : JObj) (k : String) : Option Jv := (o.find? (fun p => p.1 == k)).map (·.2)

/-- The `/gamezone/read` route: body and HTTP status. -/
def read_gamezone_route (connected : Bool) (readRes : Option PyStr) : JObj × Nat :=
  if !connected then ([("error", Jv.js "Not connected to dev server")], 400)
  else
    match readRes with
    | some content => ([("success", Jv.jb true), ("content", Jv.jt content)], 200)
    | none => ([("error", Jv.jexc)], 500)

/-- The JSON body and status the `/generate-game` handler produces for each of
its returns. -/
def generate_game_response (rr : RunResult) (idea : PyStr) : JObj × Nat :=
  match rr.resp with
  | .ok => ([("success", Jv.jb true),
             ("message", Jv.js "generated and deployed successfully"),
             ("game_idea", Jv.jt idea)], 200)
  | .emptyCode => ([("error", Jv.js "Failed to generate game HTML")], 500)
  | .morphFailed => ([("error", Jv.js "Failed to deploy to Freestyle")], 500)
  | .exceptionErr => ([("error", Jv.jexc)], 500)

/-- The `/generate-game` route including its two precondition checks. -/
def generate_game_route (connected hasIdea : Bool) (d : Debug) (idea : PyStr) (t : Nat)
    (genRes readRes morphRes : Option PyStr) (writeOk : Bool) : JObj × Nat :=
  if !connected then
    ([("error", Jv.js "Not connected to dev server. Use POST /connect first")], 400)
  else if !hasIdea then
    ([("error", Jv.js "Missing \x27game_idea\x27 in request body")], 400)
  else generate_game_response (runPipeline d idea t genRes readRes morphRes writeOk) idea

/-- The `/connect` route: on success a payload of repo id and URLs, on a caught
exception `success=false` plus the message. -/
def connect_route (res : Option (String × String × String)) : JObj × Nat :=
  match res with
  | some info =>
      ([("success", Jv.jb true),
        ("message", Jv.js "Successfully connected to dev server"),
        ("repo_id", Jv.js info.1),
        ("app_url", Jv.js info.2.1),
        ("vscode_url", Jv.js info.2.2)], 200)
  | none => ([("success", Jv.jb false), ("error", Jv.jexc)], 500)

/-! ### Generic list helpers: positions, append splitting, occurrence counting -/

section ListHelpers

variable {α : Type}

theorem prefix_of_prefix_append {p x b : List α} (h : p <+: x ++ b)
    (hl : p.length ≤ x.length) : p <+: x := by
  rw [List.prefix_iff_eq_take] at h
  rw [List.take_append_of_le_length hl] at h
  exact h ▸ List.take_prefix p.length x

theorem prefix_append_split {p x b : List α} (h : p <+: x ++ b)
    (hl : x.length < p.length) : x <+: p ∧ p.drop x.length <+: b := by
  rw [List.prefix_iff_eq_take] at h
  rw [List.take_append_eq_append_take, List.take_of_length_le (le_of_lt hl)] at h
  constructor
  · exact h ▸ List.prefix_append x _
  · rw [h, List.drop_left]
    exact List.take_prefix _ b

theorem infix_iff_exists_drop {p l : List α} : p <:+: l ↔ ∃ i, p <+: l.drop i := by
  rw [List.infix_iff_prefix_suffix]
  constructor
  · rintro ⟨t, hp, hs⟩
    exact ⟨l.length - t.length, by rwa [← List.suffix_iff_eq_drop.mp hs]⟩
  · rintro ⟨i, hp⟩
    exact ⟨l.drop i, hp, List.drop_suffix i l⟩

theorem infix_append_cases {p a b : List α} (h : p <:+: a ++ b) :
    p <:+: a ∨ p <:+: b ∨
      ∃ x, x <:+ a ∧ x ≠ [] ∧ x.length < p.length ∧ x <+: p ∧ p.drop x.length <+: b := by
  rcases infix_iff_exists_drop.mp h with ⟨i, hp⟩
  rw [List.drop_append_eq_append_drop] at hp
  by_cases hi : a.length ≤ i
  · rw [List.drop_eq_nil_of_le hi, List.nil_append] at hp
    exact Or.inr (Or.inl (infix_iff_exists_drop.mpr ⟨i - a.length, hp⟩))
  · push_neg at hi
    rw [Nat.sub_eq_zero_of_le (le_of_lt hi), List.drop_zero] at hp
    by_cases hlen : p.length ≤ (a.drop i).length
    · exact Or.inl (infix_iff_exists_drop.mpr ⟨i, prefix_of_prefix_append hp hlen⟩)
    · push_neg at hlen
      rcases prefix_append_split hp hlen with ⟨h1, h2⟩
      refine Or.inr (Or.inr ⟨a.drop i, List.drop_suffix i a, ?_, hlen, h1, h2⟩)
      intro hnil
      rw [List.drop_eq_nil_iff] at hnil
      omega

theorem mem_of_getLast?_eq {l : List α} {c : α} (h : l.getLast? = some c) : c ∈ l := by
  rw [List.getLast?_eq_head?_reverse] at h
  cases hrev : l.reverse with
  | nil => rw [hrev] at h; simp at h
  | cons x xs =>
    rw [hrev] at h
    simp only [List.head?_cons, Option.some.injEq] at h
    have : c ∈ l.reverse := by rw [hrev, h]; exact List.mem_cons_self c xs
    simpa using this

theorem infix_append_elim {p a b : List α} (h : p <:+: a ++ b)
    (ha : ∀ ch, a.getLast? = some ch → ch ∉ p) : p <:+: a ∨ p <:+: b := by
  rcases infix_append_cases h with h1 | h2 | ⟨x, hxs, hxne, _, hxp, _⟩
  · exact Or.inl h1
  · exact Or.inr h2
  · exfalso
    obtain ⟨c, hc⟩ : ∃ c, x.getLast? = some c := by
      cases hx : x.getLast? with
      | none => rw [List.getLast?_eq_none_iff] at hx; exact absurd hx hxne
      | some c => exact ⟨c, rfl⟩
    have hax : a.getLast? = some c := by
      rcases hxs with ⟨t, rfl⟩
      rw [List.getLast?_append, hc]
      rfl
    exact ha c hax (hxp.subset (mem_of_getLast?_eq hc))

theorem infix_append_elim_right {p a b : List α} (h : p <:+: a ++ b)
    (hb : ∀ j, j < p.length → 0 < j → ¬ p.drop j <+: b) : p <:+: a ∨ p <:+: b := by
  rcases infix_append_cases h with h1 | h2 | ⟨x, _, hxne, hxlen, _, hdrop⟩
  · exact Or.inl h1
  · exact Or.inr h2
  · exact absurd hdrop (hb x.length hxlen (List.length_pos.mpr hxne))

theorem head?_of_prefix {x l : List α} (h : x <+: l) (hne : x ≠ []) :
    l.head? = x.head? := by
  obtain ⟨t, rfl⟩ := h
  cases x with
  | nil => exact absurd rfl hne
  | cons a as => rfl

end ListHelpers

/-- Number of positions at which `pat` occurs (as a contiguous block) in the
list: the count of suffix positions having `pat` as a prefix. -/
def countOcc (pat : PyStr) : PyStr → Nat
  | [] => 0
  | c :: cs => (if pat <+: c :: cs then 1 else 0) + countOcc pat cs

theorem countOcc_eq_zero {pat l : PyStr} (h : ¬ pat <:+: l) :
    countOcc pat l = 0 := by
  induction l with
  | nil => rfl
  | cons c cs ih =>
    rw [List.infix_cons_iff] at h
    push_neg at h
    rw [countOcc, if_neg h.1, ih h.2]

theorem countOcc_append {pat a b : PyStr}
    (h : ∀ i, i < a.length → a.length < i + pat.length → ¬ pat <+: a.drop i ++ b) :
    countOcc pat (a ++ b) = countOcc pat a + countOcc pat b := by
  induction a with
  | nil => simp [countOcc]
  | cons c cs ih =>
    have hh : ∀ i, i < cs.length → cs.length < i + pat.length → ¬ pat <+: cs.drop i ++ b := by
      intro i hi hlen
      have := h (i + 1) (by simp; omega) (by simp; omega)
      simpa using this
    have hcong : (pat <+: c :: (cs ++ b)) ↔ (pat <+: c :: cs) := by
      constructor
      · intro hp
        by_cases hl : pat.length ≤ (c :: cs).length
        · exact prefix_of_prefix_append (p := pat) (x := c :: cs) (by simpa using hp) hl
        · exfalso
          refine h 0 (by simp) (by push_neg at hl; simpa using hl) ?_
          simpa using hp
      · intro hp
        have hcb : (c :: cs) <+: (c :: cs) ++ b := List.prefix_append _ _
        rw [List.cons_append] at hcb
        exact hp.trans hcb
    rw [List.cons_append, countOcc, countOcc, ih hh, if_congr hcong rfl rfl]
    omega

theorem countOcc_append_left {pat a b : PyStr}
    (ha : ∀ x ∈ a.tails, x ≠ [] → x.length < pat.length → ¬ x <+: pat) :
    countOcc pat (a ++ b) = countOcc pat a + countOcc pat b := by
  apply countOcc_append
  intro i hi hlen hp
  have hsplit := prefix_append_split hp (by rw [List.length_drop]; omega)
  refine ha (a.drop i) ((List.mem_tails _ _).mpr (List.drop_suffix i a)) ?_ ?_ hsplit.1
  · apply List.length_pos.mp
    rw [List.length_drop]
    omega
  · rw [List.length_drop]
    omega

theorem countOcc_append_right {pat a b : PyStr}
    (hb : ∀ j, j < pat.length → 0 < j → ¬ pat.drop j <+: b) :
    countOcc pat (a ++ b) = countOcc pat a + countOcc pat b := by
  apply countOcc_append
  intro i hi hlen hp
  have hsplit := prefix_append_split hp (by rw [List.length_drop]; omega)
  refine hb (a.drop i).length ?_ ?_ hsplit.2 <;> rw [List.length_drop] <;> omega

/-! ### Properties of `replaceFence` (the `replace("```", "")` fallback) -/

theorem replaceFence_short {l : PyStr}
    (hne : ∀ (c1 c2 c3 : Char) (rest : PyStr), l = c1 :: c2 :: c3 :: rest → False) :
    replaceFence l = l :=
  match l, hne with
  | [], _ => rfl
  | [_], _ => rfl
  | [_, _], _ => rfl
  | a :: b :: c :: r, hne => ((hne a b c r rfl).elim)

theorem replaceFence_head_bt :
    ∀ l : PyStr, (replaceFence l).head? = some btChar → l.head? = some btChar := by
  intro l
  induction l using replaceFence.induct with
  | case1 c1 c2 c3 rest hc ih =>
    intro _
    rw [hc.1]
    rfl
  | case2 c1 c2 c3 rest hc ih =>
    intro h
    rw [replaceFence, if_neg hc] at h
    simpa using h
  | case3 l hne =>
    intro h
    rwa [replaceFence_short hne] at h

theorem replaceFence_two_bt :
    ∀ l : PyStr, [btChar, btChar] <+: replaceFence l → [btChar, btChar] <+: l := by
  intro l
  induction l using replaceFence.induct with
  | case1 c1 c2 c3 rest hc ih =>
    intro _
    rw [hc.1, hc.2.1]
    exact List.cons_prefix_cons.mpr ⟨rfl, List.cons_prefix_cons.mpr ⟨rfl, List.nil_prefix⟩⟩
  | case2 c1 c2 c3 rest hc ih =>
    intro h
    rw [replaceFence, if_neg hc] at h
    rcases List.cons_prefix_cons.mp h with ⟨hc1, h1⟩
    have hhead : (replaceFence (c2 :: c3 :: rest)).head? = some btChar := by
      rcases h1 with ⟨t, ht⟩
      rw [← ht]
      rfl
    have h2 := replaceFence_head_bt _ hhead
    simp only [List.head?_cons, Option.some.injEq] at h2
    exact List.cons_prefix_cons.mpr ⟨hc1, List.cons_prefix_cons.mpr ⟨h2.symm, List.nil_prefix⟩⟩
  | case3 l hne =>
    intro h
    rwa [replaceFence_short hne] at h

theorem replaceFence_no_fence : ∀ l : PyStr, ¬ fenceL <:+: replaceFence l := by
  intro l
  induction l using replaceFence.induct with
  | case1 c1 c2 c3 rest hc ih =>
    rw [replaceFence, if_pos hc]
    exact ih
  | case2 c1 c2 c3 rest hc ih =>
    rw [replaceFence, if_neg hc]
    intro h
    rcases List.infix_cons_iff.mp h with hp | hi
    · simp only [fenceL] at hp
      rcases List.cons_prefix_cons.mp hp with ⟨h1, h2⟩
      have h3 := replaceFence_two_bt _ h2
      rcases List.cons_prefix_cons.mp h3 with ⟨h4, h5⟩
      rcases List.cons_prefix_cons.mp h5 with ⟨h6, _⟩
      exact hc ⟨h1.symm, h4.symm, h6.symm⟩
    · exact ih hi
  | case3 l hne =>
    rw [replaceFence_short hne]
    intro h
    have hlen := h.length_le
    rcases l with _ | ⟨a, _ | ⟨b, _ | ⟨c, r⟩⟩⟩
    · simp [fenceL] at hlen
    · simp [fenceL] at hlen
    · simp [fenceL] at hlen
    · exact (hne a b c r rfl).elim

/-! ### Properties of `pyRstrip` and `dropWhile` -/

theorem pyRstrip_append (a b : PyStr) :
    pyRstrip (a ++ b) = if (pyRstrip b).isEmpty then pyRstrip a else a ++ pyRstrip b := by
  by_cases hb : List.dropWhile isPySpace b.reverse = []
  · rw [pyRstrip, List.reverse_append, List.dropWhile_append, if_pos (by simp [hb]),
      if_pos (by simp [pyRstrip, hb])]
    rfl
  · rw [pyRstrip, List.reverse_append, List.dropWhile_append, if_neg (by simp [hb]),
      if_neg (by simp [pyRstrip, List.isEmpty_iff, List.reverse_eq_nil_iff, hb]),
      List.reverse_append, List.reverse_reverse]
    rfl

theorem pyRstrip_prefix_self (l : PyStr) : pyRstrip l <+: l := by
  have h : List.dropWhile isPySpace l.reverse <:+ l.reverse := List.dropWhile_suffix _
  rw [← List.reverse_reverse (List.dropWhile isPySpace l.reverse)] at h
  exact List.reverse_suffix.mp h

theorem pyRstrip_eq_self {l : PyStr} {c : Char} (h : l.getLast? = some c)
    (hc : isPySpace c = false) : pyRstrip l = l := by
  rw [List.getLast?_eq_head?_reverse] at h
  obtain ⟨t, ht⟩ : ∃ t, l.reverse = c :: t := by
    cases hrev : l.reverse with
    | nil => rw [hrev] at h; simp at h
    | cons x xs =>
      rw [hrev] at h
      simp only [List.head?_cons, Option.some.injEq] at h
      exact ⟨xs, by rw [h]⟩
  rw [pyRstrip, ht, List.dropWhile_cons, if_neg (by simp [hc]), ← ht, List.reverse_reverse]

theorem pyRstrip_ne_nil {l : PyStr} {c : Char} (h : l.getLast? = some c)
    (hc : isPySpace c = false) : pyRstrip l ≠ [] := by
  rw [pyRstrip_eq_self h hc]
  intro hl
  rw [hl] at h
  simp at h

theorem prefix_drop_pyRstrip {pat l : PyStr} {i : Nat} {c : Char}
    (h : pat <+: l.drop i) (hlast : pat.getLast? = some c) (hc : isPySpace c = false) :
    pat <+: (pyRstrip l).drop i := by
  have hpne : pat ≠ [] := by intro h0; rw [h0] at hlast; simp at hlast
  have hi : i ≤ l.length := by
    by_contra hgt
    push_neg at hgt
    rw [List.drop_eq_nil_of_le (le_of_lt hgt)] at h
    exact hpne (List.prefix_nil.mp h)
  obtain ⟨r, hr⟩ := h
  have hl : l = l.take i ++ (pat ++ r) := by
    rw [hr]
    exact (List.take_append_drop i l).symm
  have hPR : pyRstrip (pat ++ r) = pat ++ pyRstrip r ∨ pyRstrip (pat ++ r) = pat := by
    rw [pyRstrip_append]
    by_cases hre : (pyRstrip r).isEmpty
    · rw [if_pos hre]
      right
      exact pyRstrip_eq_self hlast hc
    · rw [if_neg hre]
      left
      rfl
  have hne : pyRstrip (pat ++ r) ≠ [] := by
    rcases hPR with h1 | h1 <;> rw [h1] <;> simp [hpne]
  have hlift : pyRstrip l = l.take i ++ pyRstrip (pat ++ r) := by
    conv_lhs => rw [hl]
    rw [pyRstrip_append, if_neg (by simpa [List.isEmpty_iff] using hne)]
  have hlen : (l.take i).length = i := by rw [List.length_take]; omega
  rw [hlift, List.drop_append_eq_append_drop, hlen, Nat.sub_self, List.drop_zero,
    List.drop_eq_nil_of_le (le_of_eq hlen), List.nil_append]
  rcases hPR with h1 | h1
  · rw [h1]
    exact List.prefix_append pat _
  · rw [h1]

theorem head_dropWhile_not {q : Char → Bool} :
    ∀ l : PyStr, ∀ c, (l.dropWhile q).head? = some c → q c = false := by
  intro l
  induction l with
  | nil => intro c h; simp [List.dropWhile] at h
  | cons x xs ih =>
    intro c h
    rw [List.dropWhile_cons] at h
    by_cases hx : q x
    · rw [if_pos hx] at h
      exact ih c h
    · rw [if_neg hx] at h
      simp only [List.head?_cons, Option.some.injEq] at h
      rw [← h]
      simpa using hx

theorem dropWhile_eq_self_of_head {q : Char → Bool} {l : PyStr}
    (h : ∀ c, l.head? = some c → q c = false) : l.dropWhile q = l := by
  cases l with
  | nil => rfl
  | cons x xs => rw [List.dropWhile_cons, if_neg (by simp [h x rfl])]

/-! ### Structure of `ensure_react_file_contract` and `sanitize_react_code` -/

theorem sanitize_fst (raw : Option PyStr) (lbl : String) :
    (sanitize_react_code raw lbl).1 =
      (ensure_react_file_contract (strip_markdown_fences (raw.getD [])).1).1 := rfl

theorem sanitize_meta (raw : Option PyStr) (lbl : String) :
    (sanitize_react_code raw lbl).2 =
      ⟨lbl, (strip_markdown_fences (raw.getD [])).2,
       (ensure_react_file_contract (strip_markdown_fences (raw.getD [])).1).2⟩ := rfl

theorem ensure_eq_of_pos_pos {code : PyStr}
    (hi : importReact <:+: (code.dropWhile (· == bomChar)).take 300)
    (he : exportDefault <:+: code.dropWhile (· == bomChar)) :
    ensure_react_file_contract code = (code.dropWhile (· == bomChar), []) := by
  simp [ensure_react_file_contract, hi, he]

theorem ensure_eq_of_pos_neg {code : PyStr}
    (hi : importReact <:+: (code.dropWhile (· == bomChar)).take 300)
    (he : ¬ exportDefault <:+: code.dropWhile (· == bomChar)) :
    ensure_react_file_contract code =
      (pyRstrip (code.dropWhile (· == bomChar)) ++ exportTrailer, ["added_export"]) := by
  simp [ensure_react_file_contract, hi, he]

theorem ensure_eq_of_neg_pos {code : PyStr}
    (hi : ¬ importReact <:+: (code.dropWhile (· == bomChar)).take 300)
    (he : exportDefault <:+: importLine ++ code.dropWhile (· == bomChar)) :
    ensure_react_file_contract code =
      (importLine ++ code.dropWhile (· == bomChar), ["added_import"]) := by
  simp [ensure_react_file_contract, hi, he]

theorem ensure_eq_of_neg_neg {code : PyStr}
    (hi : ¬ importReact <:+: (code.dropWhile (· == bomChar)).take 300)
    (he : ¬ exportDefault <:+: importLine ++ code.dropWhile (· == bomChar)) :
    ensure_react_file_contract code =
      (pyRstrip (importLine ++ code.dropWhile (· == bomChar)) ++ exportTrailer,
       ["added_import", "added_export"]) := by
  simp [ensure_react_file_contract, hi, he]

theorem getLast_notin {a pat : PyStr} {c : Char} (ha : a.getLast? = some c) (hc : c ∉ pat) :
    ∀ ch, a.getLast? = some ch → ch ∉ pat := by
  intro ch hch
  rw [ha] at hch
  injection hch with h
  rwa [← h]

theorem infix_dropWhile_descend {p l : PyStr} {q : Char → Bool}
    (h : p <:+: l.dropWhile q) : p <:+: l :=
  h.trans (List.dropWhile_suffix q).isInfix

theorem infix_take_descend {p l : PyStr} {n : Nat} (h : p <:+: l.take n) : p <:+: l :=
  h.trans (List.take_prefix n l).isInfix

theorem infix_pyRstrip_descend {p l : PyStr} (h : p <:+: pyRstrip l) : p <:+: l :=
  h.trans (pyRstrip_prefix_self l).isInfix

theorem take_prefix_mono {x y : PyStr} (h : x <+: y) (n : Nat) : x.take n <+: y.take n := by
  obtain ⟨t, rfl⟩ := h
  rw [List.take_append_eq_append_take]
  exact List.prefix_append _ _

theorem infix_take_iff {p l : PyStr} {n : Nat} (hp : p ≠ []) :
    p <:+: l.take n ↔ ∃ i, i + p.length ≤ n ∧ p <+: l.drop i := by
  constructor
  · intro h
    rcases infix_iff_exists_drop.mp h with ⟨i, hi⟩
    rw [List.drop_take] at hi
    have h1 := List.prefix_take_iff.mp hi
    have h2 : 0 < p.length := List.length_pos.mpr hp
    exact ⟨i, by omega, h1.1⟩
  · rintro ⟨i, hle, hp2⟩
    refine infix_iff_exists_drop.mpr ⟨i, ?_⟩
    rw [List.drop_take]
    exact List.prefix_take_iff.mpr ⟨hp2, by omega⟩

theorem ensure_no_fence {code : PyStr} (h : ¬ fenceL <:+: code) :
    ¬ fenceL <:+: (ensure_react_file_contract code).1 := by
  have hn : ¬ fenceL <:+: code.dropWhile (· == bomChar) :=
    fun hc => h (infix_dropWhile_descend hc)
  have htr : ¬ fenceL <:+: exportTrailer := by decide
  have hil : ¬ fenceL <:+: importLine := by decide
  have hb : ∀ j, j < fenceL.length → 0 < j → ¬ fenceL.drop j <+: exportTrailer := by decide
  have hilast : ∀ ch, importLine.getLast? = some ch → ch ∉ fenceL :=
    @getLast_notin importLine fenceL '\n' (by decide) (by decide)
  by_cases hi : importReact <:+: (code.dropWhile (· == bomChar)).take 300
  · by_cases he : exportDefault <:+: code.dropWhile (· == bomChar)
    · rw [ensure_eq_of_pos_pos hi he]
      exact hn
    · rw [ensure_eq_of_pos_neg hi he]
      intro hc
      rcases infix_append_elim_right hc hb with h1 | h2
      · exact hn (infix_pyRstrip_descend h1)
      · exact htr h2
  · by_cases he : exportDefault <:+: importLine ++ code.dropWhile (· == bomChar)
    · rw [ensure_eq_of_neg_pos hi he]
      intro hc
      rcases infix_append_elim hc hilast with h1 | h2
      · exact hil h1
      · exact hn h2
    · rw [ensure_eq_of_neg_neg hi he]
      intro hc
      rcases infix_append_elim_right hc hb with h1 | h2
      · rcases infix_append_elim (infix_pyRstrip_descend h1) hilast with h3 | h4
        · exact hil h3
        · exact hn h4
      · exact htr h2

theorem ensure_export_infix (code : PyStr) :
    exportDefault <:+: (ensure_react_file_contract code).1 := by
  have htr : exportDefault <:+: exportTrailer := by decide
  by_cases hi : importReact <:+: (code.dropWhile (· == bomChar)).take 300
  · by_cases he : exportDefault <:+: code.dropWhile (· == bomChar)
    · rw [ensure_eq_of_pos_pos hi he]
      exact he
    · rw [ensure_eq_of_pos_neg hi he]
      exact htr.trans (List.suffix_append _ _).isInfix
  · by_cases he : exportDefault <:+: importLine ++ code.dropWhile (· == bomChar)
    · rw [ensure_eq_of_neg_pos hi he]
      exact he
    · rw [ensure_eq_of_neg_neg hi he]
      exact htr.trans (List.suffix_append _ _).isInfix

theorem ensure_ne_nil (code : PyStr) : (ensure_react_file_contract code).1 ≠ [] := by
  intro h
  have h2 := ensure_export_infix code
  rw [h] at h2
  exact absurd (List.eq_nil_of_infix_nil h2) (by decide)

theorem ensure_fixes_subset (code : PyStr) :
    ∀ f ∈ (ensure_react_file_contract code).2, f = "added_import" ∨ f = "added_export" := by
  by_cases hi : importReact <:+: (code.dropWhile (· == bomChar)).take 300
  · by_cases he : exportDefault <:+: code.dropWhile (· == bomChar)
    · rw [ensure_eq_of_pos_pos hi he]
      intro f hf
      simp at hf
    · rw [ensure_eq_of_pos_neg hi he]
      intro f hf
      simp at hf
      tauto
  · by_cases he : exportDefault <:+: importLine ++ code.dropWhile (· == bomChar)
    · rw [ensure_eq_of_neg_pos hi he]
      intro f hf
      simp at hf
      tauto
    · rw [ensure_eq_of_neg_neg hi he]
      intro f hf
      simp at hf
      tauto

theorem ensure_head_ne_bom (code : PyStr) :
    ((ensure_react_file_contract code).1).head? ≠ some bomChar := by
  have hn : ∀ c, (code.dropWhile (· == bomChar)).head? = some c → c ≠ bomChar := by
    intro c hc
    have := head_dropWhile_not code c hc
    simpa using this
  by_cases hi : importReact <:+: (code.dropWhile (· == bomChar)).take 300
  · by_cases he : exportDefault <:+: code.dropWhile (· == bomChar)
    · rw [ensure_eq_of_pos_pos hi he]
      intro h
      exact hn bomChar h rfl
    · rw [ensure_eq_of_pos_neg hi he]
      intro h
      rw [List.head?_append] at h
      cases hpx : (pyRstrip (code.dropWhile (· == bomChar))).head? with
      | none =>
        rw [hpx] at h
        simp only [Option.or] at h
        exact absurd h (by decide)
      | some c =>
        rw [hpx] at h
        simp only [Option.or, Option.some.injEq] at h
        have hne : pyRstrip (code.dropWhile (· == bomChar)) ≠ [] := by
          intro h0
          rw [h0] at hpx
          simp at hpx
        have hh := head?_of_prefix (pyRstrip_prefix_self (code.dropWhile (· == bomChar))) hne
        exact hn c (by rw [hh, hpx]) h
  · by_cases he : exportDefault <:+: importLine ++ code.dropWhile (· == bomChar)
    · rw [ensure_eq_of_neg_pos hi he]
      intro h
      rw [List.head?_append, (by decide : importLine.head? = some 'i')] at h
      simp only [Option.or, Option.some.injEq] at h
      exact absurd h (by decide)
    · rw [ensure_eq_of_neg_neg hi he]
      intro h
      rw [List.head?_append] at h
      cases hpx : (pyRstrip (importLine ++ code.dropWhile (· == bomChar))).head? with
      | none =>
        rw [hpx] at h
        simp only [Option.or] at h
        exact absurd h (by decide)
      | some c =>
        rw [hpx] at h
        simp only [Option.or, Option.some.injEq] at h
        have hne : pyRstrip (importLine ++ code.dropWhile (· == bomChar)) ≠ [] := by
          intro h0
          rw [h0] at hpx
          simp at hpx
        have hh := head?_of_prefix
          (pyRstrip_prefix_self (importLine ++ code.dropWhile (· == bomChar))) hne
        rw [List.head?_append, (by decide : importLine.head? = some 'i'), hpx] at hh
        simp only [Option.or, Option.some.injEq] at hh
        rw [← hh] at h
        exact absurd h (by decide)

theorem ensure_import_in_take300 (code : PyStr) :
    importReact <:+: ((ensure_react_file_contract code).1).take 300 := by
  have hpne : importReact ≠ [] := by decide
  have hlast : importReact.getLast? = some 't' := by decide
  have hsp : isPySpace 't' = false := by decide
  by_cases hi : importReact <:+: (code.dropWhile (· == bomChar)).take 300
  · by_cases he : exportDefault <:+: code.dropWhile (· == bomChar)
    · rw [ensure_eq_of_pos_pos hi he]
      exact hi
    · rw [ensure_eq_of_pos_neg hi he]
      rcases (infix_take_iff hpne).mp hi with ⟨i, hle, hpre⟩
      have h2 : importReact <+: (pyRstrip (code.dropWhile (· == bomChar))).drop i :=
        prefix_drop_pyRstrip hpre hlast hsp
      have h3 : importReact <+:
          (pyRstrip (code.dropWhile (· == bomChar)) ++ exportTrailer).drop i := by
        rw [List.drop_append_eq_append_drop]
        exact h2.trans (List.prefix_append _ _)
      exact (infix_take_iff hpne).mpr ⟨i, hle, h3⟩
  · have h1 : importReact <+: importLine ++ code.dropWhile (· == bomChar) :=
      (by decide : importReact <+: importLine).trans (List.prefix_append _ _)
    by_cases he : exportDefault <:+: importLine ++ code.dropWhile (· == bomChar)
    · rw [ensure_eq_of_neg_pos hi he]
      exact (List.prefix_take_iff.mpr ⟨h1, by decide⟩).isInfix
    · rw [ensure_eq_of_neg_neg hi he]
      have h2 : importReact <+: pyRstrip (importLine ++ code.dropWhile (· == bomChar)) := by
        have h0 := prefix_drop_pyRstrip (i := 0) (by simpa using h1) hlast hsp
        simpa using h0
      have h3 : importReact <+:
          pyRstrip (importLine ++ code.dropWhile (· == bomChar)) ++ exportTrailer :=
        h2.trans (List.prefix_append _ _)
      exact (List.prefix_take_iff.mpr ⟨h3, by decide⟩).isInfix

/-- Whether `strip_markdown_fences` takes the block-extraction branch and the
extracted (trimmed) inner block itself still contains a fence marker. -/
def innerRetained (text : PyStr) : Bool :=
  match findOpenEnd text, rfindFence text with
  | some s, some e =>
      decide (s < e) && decide (fenceL <:+: pyStrip ((text.drop s).take (e - s)))
  | _, _ => false

theorem strip_no_fence {text : PyStr} (h : innerRetained text = false) :
    ¬ fenceL <:+: (strip_markdown_fences text).1 := by
  unfold strip_markdown_fences
  by_cases hf : fenceL <:+: text
  · rw [if_pos hf]
    cases hfo : findOpenEnd text with
    | none => exact replaceFence_no_fence text
    | some s =>
      cases hrf : rfindFence text with
      | none => exact replaceFence_no_fence text
      | some e =>
        dsimp only
        by_cases hse : s < e
        · rw [if_pos hse]
          unfold innerRetained at h
          rw [hfo, hrf] at h
          simp [hse] at h
          exact h
        · rw [if_neg hse]
          exact replaceFence_no_fence text
  · rw [if_neg hf]
    exact hf

theorem sanitize_ne_nil (raw : Option PyStr) (lbl : String) :
    (sanitize_react_code raw lbl).1 ≠ [] := by
  rw [sanitize_fst]
  exact ensure_ne_nil _

theorem sanitize_isEmpty_false (raw : Option PyStr) (lbl : String) :
    ((sanitize_react_code raw lbl).1).isEmpty = false := by
  rw [Bool.eq_false_iff]
  intro hcon
  exact sanitize_ne_nil raw lbl (List.isEmpty_iff.mp hcon)

theorem sanitize_second_pass {code : PyStr} (lbl2 : String)
    (h : ¬ fenceL <:+: (ensure_react_file_contract code).1) :
    sanitize_react_code (some (ensure_react_file_contract code).1) lbl2 =
      ((ensure_react_file_contract code).1, ⟨lbl2, false, []⟩) := by
  have hexp := ensure_export_infix code
  have himp := ensure_import_in_take300 code
  have hbom := ensure_head_ne_bom code
  have hstrip : strip_markdown_fences (ensure_react_file_contract code).1 =
      ((ensure_react_file_contract code).1, false) := by
    unfold strip_markdown_fences
    rw [if_neg h]
  have hdw : (ensure_react_file_contract code).1.dropWhile (· == bomChar) =
      (ensure_react_file_contract code).1 := by
    apply dropWhile_eq_self_of_head
    intro c hc
    have hcb : c ≠ bomChar := fun he => hbom (he ▸ hc)
    simpa using hcb
  have hens : ensure_react_file_contract (ensure_react_file_contract code).1 =
      ((ensure_react_file_contract code).1, []) := by
    have h1 : importReact <:+:
        ((ensure_react_file_contract code).1.dropWhile (· == bomChar)).take 300 := by
      rw [hdw]
      exact himp
    have h2 : exportDefault <:+:
        (ensure_react_file_contract code).1.dropWhile (· == bomChar) := by
      rw [hdw]
      exact hexp
    rw [ensure_eq_of_pos_pos h1 h2, hdw]
  have hrfl : sanitize_react_code (some (ensure_react_file_contract code).1) lbl2 =
      ((ensure_react_file_contract
          (strip_markdown_fences (ensure_react_file_contract code).1).1).1,
       ⟨lbl2, (strip_markdown_fences (ensure_react_file_contract code).1).2,
        (ensure_react_file_contract
          (strip_markdown_fences (ensure_react_file_contract code).1).1).2⟩) := rfl
  rw [hrfl, hstrip]
  simp [hens]

/-! ### Concrete inputs used by counterexamples and witnesses -/

/-- A fenced block whose extracted inner text still contains a fence marker. -/
def c4raw : PyStr := fenceL ++ "js\nA".toList ++ fenceL ++ "B".toList ++ fenceL

/-- Fallback-branch input: fence markers but no complete opening-fence line. -/
def c4wraw : PyStr := "a".toList ++ fenceL ++ "b".toList

/-- The same input as `c4raw`, reused to break idempotence of the sanitizer. -/
def c6raw : PyStr := fenceL ++ "js\nA".toList ++ fenceL ++ "B".toList ++ fenceL

/-- An input with no `"import React"` substring in which deleting the fence
marker manufactures one. -/
def c7raw : PyStr := "import R".toList ++ fenceL ++ "eact".toList

/-- An input that contains `"export default GameZone"` but does not end with
the export statement. -/
def c8raw : PyStr := "const G = 0; export default GameZone; // done".toList

/-- The canonical export statement of the spec. -/
def exportStmt : PyStr := "export default GameZone;".toList

/-- A BOM-led input that needs no fixes: the sanitizer still changes it. -/
def c10demo : PyStr := bomChar :: (importLine ++ "const GameZone = 0;".toList ++ exportTrailer)

/-- A plain fence-free component body missing both import and export. -/
def plainGameZone : PyStr := "const GameZone = 0;".toList

/-! ### Claim theorems -/

/-- Claim C1 (code bug): when the Generator Adapter fails
(`generate_game_with_anthropic` catches its exception and returns `None`), the
`/generate-game` run performs zero writes and never invokes Morph — but it
reports the failure through the generic exception 500 response (a `TypeError`
from `len(None)`), never through the dedicated `"Failed to generate game
HTML"` response (`emptyCode`), because that guard tests the sanitized code,
which is never empty. -/
theorem claim_C1_generator_failure_path (d : Debug) (idea : PyStr) (t : Nat)
    (readRes morphRes : Option PyStr) (writeOk : Bool) :
    (runPipeline d idea t none readRes morphRes writeOk).resp = RouteResponse.exceptionErr ∧
    (runPipeline d idea t none readRes morphRes writeOk).writeCalls = [] ∧
    (runPipeline d idea t none readRes morphRes writeOk).morphCalled = false ∧
    (runPipeline d idea t none readRes morphRes writeOk).resp ≠ RouteResponse.emptyCode := by
  have hne := sanitize_isEmpty_false none "Claude"
  simp [runPipeline, hne]

/-- Claim C2, counterexample: a run from the initial state whose
`write_gamezone` call throws leaves `morph_code` set but `written_code`
unset — the recorded invariant `written_code = morph_code` fails after a run
that fails at the write step. -/
theorem claim_C2_counterexample :
    (runPipeline last_generation_debug_init [] 0 (some []) (some [])
        (some []) false).debug.written_code ≠
      (runPipeline last_generation_debug_init [] 0 (some []) (some [])
        (some []) false).debug.morph_code := by
  decide

/-- The spec invariant on the debug slot: the recorded written text equals the
recorded sanitized patch output. -/
def debugInv (d : Debug) : Prop := d.written_code = d.morph_code

/-- Claim C2 (amended): `written_code = morph_code` holds in the initial debug
state and is preserved by every run whose File Store write does not throw;
a run whose `write_gamezone` call throws records `morph_code` without
`written_code` and can break the equality (see the counterexample). -/
theorem claim_C2_write_invariant_amended :
    debugInv last_generation_debug_init ∧
    ∀ (d : Debug) (idea : PyStr) (t : Nat) (genRes readRes morphRes : Option PyStr),
      debugInv d →
      debugInv (runPipeline d idea t genRes readRes morphRes true).debug := by
  refine ⟨rfl, ?_⟩
  intro d idea t genRes readRes morphRes hd
  unfold debugInv at hd ⊢
  simp only [runPipeline]
  split
  · simpa using hd
  · cases genRes with
    | none => simpa using hd
    | some g =>
      cases readRes with
      | none => simpa using hd
      | some c =>
        cases morphRes with
        | none => simpa using hd
        | some m => simp

/-- Witness for claim C2: the preservation theorem applied to the initial
state and a fully successful run. -/
theorem claim_C2_witness :
    debugInv (runPipeline last_generation_debug_init [] 0 none none none true).debug :=
  claim_C2_write_invariant_amended.2 last_generation_debug_init [] 0 none none none
    claim_C2_write_invariant_amended.1

/-- Claim C3: when the Morph chat completion raises (generation and read
succeeded), the run returns the dedicated patch-failure 500 response
(`"Failed to deploy to Freestyle"`), performs zero writes, and the debug
slot's `written_code` keeps its value from the prior run. -/
theorem claim_C3_patch_failure (d : Debug) (idea : PyStr) (t : Nat) (g c : PyStr)
    (writeOk : Bool) :
    (runPipeline d idea t (some g) (some c) none writeOk).resp = RouteResponse.morphFailed ∧
    (runPipeline d idea t (some g) (some c) none writeOk).writeCalls = [] ∧
    (runPipeline d idea t (some g) (some c) none writeOk).morphCalled = true ∧
    (runPipeline d idea t (some g) (some c) none writeOk).debug.written_code =
      d.written_code := by
  have hne := sanitize_isEmpty_false (some g) "Claude"
  simp [runPipeline, hne]

/-- Claim C4, counterexample: an input containing fence markers whose sanitized
output still contains one — the extraction branch keeps whatever lies between
the first opening fence and the last marker, including interior markers. -/
theorem claim_C4_counterexample :
    fenceL <:+: c4raw ∧ fenceL <:+: (sanitize_react_code (some c4raw) "Claude").1 := by
  decide

/-- Claim C4 (amended): for every raw input containing a fence marker, the
sanitized output contains no fence marker unless `strip_markdown_fences`
extracts a fenced block whose trimmed inner content itself contains a marker
(`innerRetained`); in particular both `replace`-fallback branches always
remove every marker. -/
theorem claim_C4_fence_removal_amended (raw : PyStr) (lbl : String)
    (_hf : fenceL <:+: raw) (h : innerRetained raw = false) :
    ¬ fenceL <:+: (sanitize_react_code (some raw) lbl).1 := by
  show ¬ fenceL <:+: (ensure_react_file_contract (strip_markdown_fences raw).1).1
  exact ensure_no_fence (strip_no_fence h)

/-- Witness for claim C4: a fallback-branch input with a marker, on which the
amended theorem yields a marker-free output. -/
theorem claim_C4_witness :
    (fenceL <:+: c4wraw ∧ innerRetained c4wraw = false) ∧
    ¬ fenceL <:+: (sanitize_react_code (some c4wraw) "Claude").1 :=
  ⟨⟨by decide, by decide⟩,
   claim_C4_fence_removal_amended c4wraw "Claude" (by decide) (by decide)⟩

/-- Claim C5, counterexample: on the empty input the sanitizer does not return
it unchanged with an empty fix set — it fabricates the import/export scaffold
and reports both fixes. -/
theorem claim_C5_counterexample :
    ¬ ((sanitize_react_code (some []) "Claude").1 = [] ∧
       (sanitize_react_code (some []) "Claude").2.fixes = []) := by
  decide

/-- Claim C5 (amended): an absent (`None`) raw input is coerced to the empty
string, and on it `sanitize_react_code` returns the canonical scaffold —
the import line (right-stripped) followed by the export trailer — with
`stripped_fences = false` and fixes `[added_import, added_export]`, rather
than returning the input unchanged with no fixes. -/
theorem claim_C5_empty_input_amended :
    sanitize_react_code none "Claude" = sanitize_react_code (some []) "Claude" ∧
    (sanitize_react_code none "Claude").1 = pyRstrip importLine ++ exportTrailer ∧
    (sanitize_react_code none "Claude").2 =
      ⟨"Claude", false, ["added_import", "added_export"]⟩ := by
  decide

/-- Claim C6, counterexample: an input on which the sanitizer is not
idempotent — the first output retains a fence marker, so the second pass
strips again and returns a different text. -/
theorem claim_C6_counterexample :
    (sanitize_react_code (some (sanitize_react_code (some c6raw) "Claude").1)
        "Claude").2.stripped_fences = true ∧
    (sanitize_react_code (some (sanitize_react_code (some c6raw) "Claude").1) "Claude").1 ≠
      (sanitize_react_code (some c6raw) "Claude").1 := by
  decide

/-- Claim C6 (amended): on every raw input whose first sanitized output
contains no fence marker, the sanitizer is idempotent — the second pass
returns the output unchanged with `stripped_fences = false` and an empty fix
list.  (When the first output retains a marker, the second pass strips again;
see the counterexample.) -/
theorem claim_C6_idempotent_amended (raw : Option PyStr) (lbl lbl2 : String)
    (h : ¬ fenceL <:+: (sanitize_react_code raw lbl).1) :
    sanitize_react_code (some (sanitize_react_code raw lbl).1) lbl2 =
      ((sanitize_react_code raw lbl).1, ⟨lbl2, false, []⟩) :=
  @sanitize_second_pass (strip_markdown_fences (raw.getD [])).1 lbl2 h

/-- Witness for claim C6: idempotence on a concrete fence-free input. -/
theorem claim_C6_witness :
    (¬ fenceL <:+: (sanitize_react_code (some plainGameZone) "Claude").1) ∧
    sanitize_react_code (some (sanitize_react_code (some plainGameZone) "Claude").1)
        "Claude" =
      ((sanitize_react_code (some plainGameZone) "Claude").1, ⟨"Claude", false, []⟩) :=
  ⟨by decide,
   claim_C6_idempotent_amended (some plainGameZone) "Claude" "Claude" (by decide)⟩

/-- Claim C7, counterexample: a raw input missing `"import React"` for which
fence deletion manufactures the phrase — the output then carries an import
line although the reported fixes do not include `added_import`. -/
theorem claim_C7_counterexample :
    ¬ importReact <:+: c7raw ∧
    "added_import" ∉ (sanitize_react_code (some c7raw) "Claude").2.fixes := by
  decide

/-- Claim C7 (amended): for every raw input whose fence-stripped form still
misses the React-import phrase (fence deletion can manufacture it, see the
counterexample), the sanitized output contains exactly one occurrence of that
phrase and the reported fixes include the added-import entry. -/
theorem claim_C7_added_import_amended (raw : PyStr) (lbl : String)
    (h : ¬ importReact <:+: (strip_markdown_fences raw).1) :
    countOcc importReact (sanitize_react_code (some raw) lbl).1 = 1 ∧
    "added_import" ∈ (sanitize_react_code (some raw) lbl).2.fixes := by
  show countOcc importReact (ensure_react_file_contract (strip_markdown_fences raw).1).1 = 1 ∧
    "added_import" ∈ (ensure_react_file_contract (strip_markdown_fences raw).1).2
  have hn : ¬ importReact <:+: (strip_markdown_fences raw).1.dropWhile (· == bomChar) :=
    fun hc => h (infix_dropWhile_descend hc)
  have hi : ¬ importReact <:+:
      ((strip_markdown_fences raw).1.dropWhile (· == bomChar)).take 300 :=
    fun hc => hn (infix_take_descend hc)
  have hleft : ∀ x ∈ importLine.tails, x ≠ [] → x.length < importReact.length →
      ¬ x <+: importReact := by decide
  have hright : ∀ j, j < importReact.length → 0 < j →
      ¬ importReact.drop j <+: exportTrailer := by decide
  by_cases he : exportDefault <:+:
      importLine ++ (strip_markdown_fences raw).1.dropWhile (· == bomChar)
  · rw [ensure_eq_of_neg_pos hi he]
    refine ⟨?_, by simp⟩
    rw [countOcc_append_left hleft, countOcc_eq_zero hn,
      (by decide : countOcc importReact importLine = 1)]
  · rw [ensure_eq_of_neg_neg hi he]
    refine ⟨?_, by simp⟩
    rw [countOcc_append_right hright,
      (by decide : countOcc importReact exportTrailer = 0), pyRstrip_append]
    by_cases hre : (pyRstrip ((strip_markdown_fences raw).1.dropWhile (· == bomChar))).isEmpty
    · rw [if_pos hre, (by decide : countOcc importReact (pyRstrip importLine) = 1)]
    · rw [if_neg hre, countOcc_append_left hleft,
        (by decide : countOcc importReact importLine = 1),
        countOcc_eq_zero (fun hc => hn (infix_pyRstrip_descend hc))]

/-- Witness for claim C7: a concrete input with no import phrase anywhere. -/
theorem claim_C7_witness :
    (¬ importReact <:+: (strip_markdown_fences plainGameZone).1) ∧
    (countOcc importReact (sanitize_react_code (some plainGameZone) "Claude").1 = 1 ∧
     "added_import" ∈ (sanitize_react_code (some plainGameZone) "Claude").2.fixes) :=
  ⟨by decide, claim_C7_added_import_amended plainGameZone "Claude" (by decide)⟩

/-- Claim C8, counterexample: an input that merely contains
`"export default GameZone"` somewhere (here followed by a comment) defeats the
containment check, so the output does not end with the canonical export
statement even though the input did not end with it. -/
theorem claim_C8_counterexample :
    ¬ exportStmt <:+ c8raw ∧
    ¬ exportStmt <:+ (sanitize_react_code (some c8raw) "Claude").1 := by
  decide

/-- Claim C8 (amended): for every raw input whose fence-stripped form does not
contain the substring `"export default GameZone"` (the code checks
containment, not a trailing position — see the counterexample), the sanitized
output ends with the canonical export trailer. -/
theorem claim_C8_export_trailer_amended (raw : PyStr) (lbl : String)
    (h : ¬ exportDefault <:+: (strip_markdown_fences raw).1) :
    exportTrailer <:+ (sanitize_react_code (some raw) lbl).1 := by
  show exportTrailer <:+ (ensure_react_file_contract (strip_markdown_fences raw).1).1
  have hn : ¬ exportDefault <:+: (strip_markdown_fences raw).1.dropWhile (· == bomChar) :=
    fun hc => h (infix_dropWhile_descend hc)
  have hilast : ∀ ch, importLine.getLast? = some ch → ch ∉ exportDefault :=
    @getLast_notin importLine exportDefault '\n' (by decide) (by decide)
  by_cases hi : importReact <:+:
      ((strip_markdown_fences raw).1.dropWhile (· == bomChar)).take 300
  · rw [ensure_eq_of_pos_neg hi hn]
    exact List.suffix_append _ _
  · have he : ¬ exportDefault <:+:
        importLine ++ (strip_markdown_fences raw).1.dropWhile (· == bomChar) := by
      intro hc
      rcases infix_append_elim hc hilast with h1 | h2
      · exact (by decide : ¬ exportDefault <:+: importLine) h1
      · exact hn h2
    rw [ensure_eq_of_neg_neg hi he]
    exact List.suffix_append _ _

/-- Witness for claim C8: a concrete input with no export substring. -/
theorem claim_C8_witness :
    (¬ exportDefault <:+: (strip_markdown_fences plainGameZone).1) ∧
    exportTrailer <:+ (sanitize_react_code (some plainGameZone) "Claude").1 :=
  ⟨by decide, claim_C8_export_trailer_amended plainGameZone "Claude" (by decide)⟩

/-- Claim C9, counterexample: the `/gamezone/read` precondition failure (not
connected) is a failing request (status 400) whose JSON body has no `success`
field at all — failures are not uniformly reported with `success=false`. -/
theorem claim_C9_counterexample :
    (read_gamezone_route false none).2 = 400 ∧
    getKey (read_gamezone_route false none).1 "success" = none := by
  decide

/-- Claim C9 (amended): every failing response (status 400 or above) of the
modeled routes is a structured JSON object carrying an `error` field with the
failure message, but only the `/connect` failure response additionally carries
`success=false`; the other routes' failure responses omit the `success` flag
(see the counterexample).  No failure crashes the handler. -/
theorem claim_C9_error_responses_amended :
    (∀ (connected : Bool) (readRes : Option PyStr),
       400 ≤ (read_gamezone_route connected readRes).2 →
       (getKey (read_gamezone_route connected readRes).1 "error").isSome = true) ∧
    (∀ (connected hasIdea : Bool) (d : Debug) (idea : PyStr) (t : Nat)
       (genRes readRes morphRes : Option PyStr) (writeOk : Bool),
       400 ≤ (generate_game_route connected hasIdea d idea t genRes readRes morphRes
         writeOk).2 →
       (getKey (generate_game_route connected hasIdea d idea t genRes readRes morphRes
         writeOk).1 "error").isSome = true) ∧
    (∀ res, 400 ≤ (connect_route res).2 →
       (getKey (connect_route res).1 "error").isSome = true ∧
       getKey (connect_route res).1 "success" = some (Jv.jb false)) := by
  refine ⟨?_, ?_, ?_⟩
  · intro connected readRes h
    cases connected
    · rfl
    · cases readRes with
      | some c =>
        simp [read_gamezone_route] at h
      | none => rfl
  · intro connected hasIdea d idea t genRes readRes morphRes writeOk h
    cases connected
    · rfl
    · cases hasIdea
      · rfl
      · cases hrr : (runPipeline d idea t genRes readRes morphRes writeOk).resp with
        | ok =>
          simp [generate_game_route, generate_game_response, hrr] at h
        | emptyCode => simp [generate_game_route, generate_game_response, hrr, getKey]
        | morphFailed => simp [generate_game_route, generate_game_response, hrr, getKey]
        | exceptionErr => simp [generate_game_route, generate_game_response, hrr, getKey]
  · intro res h
    cases res with
    | some info => simp [connect_route] at h
    | none => exact ⟨rfl, rfl⟩

/-- Witness for claim C9: the amended theorem applied to a concrete failing
request of each route. -/
theorem claim_C9_witness :
    (getKey (read_gamezone_route false none).1 "error").isSome = true ∧
    (getKey (generate_game_route true true last_generation_debug_init [] 0 none none none
      true).1 "error").isSome = true ∧
    ((getKey (connect_route none).1 "error").isSome = true ∧
     getKey (connect_route none).1 "success" = some (Jv.jb false)) :=
  ⟨claim_C9_error_responses_amended.1 false none (by decide),
   claim_C9_error_responses_amended.2.1 true true last_generation_debug_init [] 0 none none
     none true (by decide),
   claim_C9_error_responses_amended.2.2 none (by decide)⟩

/-- Claim C10: for every input beginning with the byte-order mark, the
sanitized output does not begin with it, and the reported fixes never mention
the BOM (they can only be `added_import` or `added_export`); consequently an
empty fix set with `stripped_fences=false` does not imply the output equals
the input, as the concrete `c10demo` input shows. -/
theorem claim_C10_bom_removal (raw : PyStr) (lbl : String)
    (_hb : raw.head? = some bomChar) :
    (sanitize_react_code (some raw) lbl).1.head? ≠ some bomChar ∧
    (∀ f ∈ (sanitize_react_code (some raw) lbl).2.fixes,
        f = "added_import" ∨ f = "added_export") ∧
    (c10demo.head? = some bomChar ∧
     (sanitize_react_code (some c10demo) "Claude").2.stripped_fences = false ∧
     (sanitize_react_code (some c10demo) "Claude").2.fixes = [] ∧
     (sanitize_react_code (some c10demo) "Claude").1 ≠ c10demo) := by
  refine ⟨?_, ?_, by decide, by decide, by decide, by decide⟩
  · show (ensure_react_file_contract (strip_markdown_fences raw).1).1.head? ≠ some bomChar
    exact ensure_head_ne_bom _
  · show ∀ f ∈ (ensure_react_file_contract (strip_markdown_fences raw).1).2,
      f = "added_import" ∨ f = "added_export"
    exact ensure_fixes_subset _

/-- Witness for claim C10: the theorem applied at the concrete BOM-led input. -/
theorem claim_C10_witness :
    c10demo.head? = some bomChar ∧
    (sanitize_react_code (some c10demo) "Claude").1.head? ≠ some bomChar :=
  ⟨by decide, (claim_C10_bom_removal c10demo "Claude" (by decide)).1⟩
